import Mathlib

/-!
Verification of the approval-management and series
modules, shallowly embedded from `src/nft/src/approval/approval_impl.rs`,
`src/nft/src/series.rs` and `src/nft/src/lib.rs`.

Panicking Rust paths (`env::panic_str`, `require!`, `assert!`) become
`Except.error`; since a panic aborts the whole call and discards every state
mutation, a call that errors leaves the contract state unchanged by
construction.
-/

namespace FireflyNft

abbrev AccountId := String
abbrev TokenId := String

/-- The per-token `HashMap<AccountId, u64>` of approvals, modelled as an
association list with unique keys. -/
abbrev ApprovalMap := List (AccountId × Nat)

/-- `HashMap::get`. -/
def hmGet (m : ApprovalMap) (a : AccountId) : Option Nat :=
  match m with
  | [] => none
  | (k, v) :: rest => if k = a then some v else hmGet rest a

/-- `HashMap::insert` (replace the binding if the key is present, append
otherwise). -/
def hmInsert (m : ApprovalMap) (a : AccountId) (v : Nat) : ApprovalMap :=
  match m with
  | [] => [(a, v)]
  | (k, w) :: rest => if k = a then (k, v) :: rest else (k, w) :: hmInsert rest a v

/-- `HashMap::remove`. -/
def hmRemove (m : ApprovalMap) (a : AccountId) : ApprovalMap :=
  match m with
  | [] => []
  | (k, w) :: rest => if k = a then rest else (k, w) :: hmRemove rest a

/-- Pointwise update of a `LookupMap`/`TreeMap`, modelled as a function into
`Option`. `v = none` is `remove`, `v = some _` is `insert`. -/
def upd {α : Type} (m : TokenId → Option α) (k : TokenId) (v : Option α) :
    TokenId → Option α :=
  fun t => if t = k then v else m t

/-- The `NonFungibleToken` sub-state reached by the approval extension:
`owner_by_id`, the optional `approvals_by_id` (absent when approval
management is disabled for the contract) and the optional
`next_approval_id_by_id`. -/
structure NFTState where
  owner_by_id : TokenId → Option AccountId
  approvals_by_id : Option (TokenId → Option ApprovalMap)
  next_approval_id_by_id : Option (TokenId → Option Nat)

/-- The pieces of the host environment the approval calls read:
`env::predecessor_account_id()` and `env::attached_deposit()` (in yocto). -/
structure Env where
  predecessor_account_id : AccountId
  attached_deposit : Nat

/-- Modelled from the spec: storage is byte-accounted and refunds translate a
byte delta into native currency; one byte of storage costs this many minimal
(yocto) units on the host platform. -/
def STORAGE_PRICE_PER_BYTE : Nat := 10000000000000000000

/-- Modelled from the spec: the marginal bytes needed to store one more
(account, id) pair in the approval mapping of a token (`bytes_for_approved_account_id`
lives in the `utils` module, outside the reviewed sources): the account-id
bytes plus a 4-byte length prefix plus the 8-byte `u64` approval id. -/
def bytes_for_approved_account_id (account_id : AccountId) : Nat :=
  account_id.length + 4 + 8

/-- Modelled from the spec: the reusable refund utility (`refund_deposit` in
the `utils` module, outside the reviewed sources). It charges
`storage_used` bytes against the attached payment, aborts if the payment is
insufficient, and returns the excess refunded to the caller. -/
def refund_deposit (storage_used : Nat) (attached : Nat) : Except String Nat :=
  if attached < storage_used * STORAGE_PRICE_PER_BYTE then
    Except.error "Must attach enough deposit to cover storage"
  else
    Except.ok (attached - storage_used * STORAGE_PRICE_PER_BYTE)

/-- Result of a successful `nft_approve`: the new state, the approval id
assigned, the storage delta charged, the refund returned to the caller, and
the scheduled `nft_on_approve` notification (token, owner, approval id,
message) when a `msg` was supplied. -/
structure ApproveResult where
  state : NFTState
  approval_id : Nat
  storage_used : Nat
  refund : Nat
  promise : Option (TokenId × AccountId × Nat × String)

/-- `nft_approve` from `approval_impl.rs` lines 24-66. -/
def nft_approve (s : NFTState) (env : Env) (token_id : TokenId)
    (account_id : AccountId) (msg : Option String) :
    Except String ApproveResult :=
  -- assert_at_least_one_yocto
  if env.attached_deposit < 1 then
    Except.error "Requires attached deposit of at least 1 yoctoNEAR"
  else
    match s.approvals_by_id with
    | none => Except.error "NFT does not support Approval Management"
    | some approvals_by_id =>
      match s.owner_by_id token_id with
      | none => Except.error "Token not found"
      | some owner_id =>
        if env.predecessor_account_id ≠ owner_id then
          Except.error "Predecessor must be token owner."
        else
          match s.next_approval_id_by_id with
          | none => Except.error "next_approval_by_id must be set for approval ext"
          | some next_approval_id_by_id =>
            -- approved_account_ids := approvals_by_id.get(token_id).unwrap_or_default()
            -- approval_id := next_approval_id_by_id.get(token_id).unwrap_or(1)
            -- old_approval_id := approved_account_ids.insert(account_id, approval_id)
            -- storage_used := if old_approval_id.is_none { bytes } else { 0 }
            match refund_deposit
                (if (hmGet ((approvals_by_id token_id).getD []) account_id).isNone then
                   bytes_for_approved_account_id account_id
                 else 0)
                env.attached_deposit with
            | Except.error e => Except.error e
            | Except.ok refund =>
              Except.ok
                { state :=
                    { s with
                      approvals_by_id :=
                        some (upd approvals_by_id token_id
                          (some (hmInsert ((approvals_by_id token_id).getD [])
                            account_id ((next_approval_id_by_id token_id).getD 1))))
                      next_approval_id_by_id :=
                        some (upd next_approval_id_by_id token_id
                          (some ((next_approval_id_by_id token_id).getD 1 + 1))) }
                  approval_id := (next_approval_id_by_id token_id).getD 1
                  storage_used :=
                    if (hmGet ((approvals_by_id token_id).getD []) account_id).isNone then
                      bytes_for_approved_account_id account_id
                    else 0
                  refund := refund
                  promise :=
                    msg.map (fun m =>
                      (token_id, owner_id, (next_approval_id_by_id token_id).getD 1, m)) }

/-- `nft_revoke` from `approval_impl.rs` lines 68-96. On success returns the
new state and the refund (in yocto) transferred back to the owner. -/
def nft_revoke (s : NFTState) (env : Env) (token_id : TokenId)
    (account_id : AccountId) : Except String (NFTState × Nat) :=
  -- assert_one_yocto
  if env.attached_deposit ≠ 1 then
    Except.error "Requires attached deposit of exactly 1 yoctoNEAR"
  else
    match s.approvals_by_id with
    | none => Except.error "NFT does not support Approval Management"
    | some approvals_by_id =>
      match s.owner_by_id token_id with
      | none => Except.error "Token not found"
      | some owner_id =>
        if env.predecessor_account_id ≠ owner_id then
          Except.error "Predecessor must be token owner."
        else
          match approvals_by_id token_id with
          | none => Except.ok (s, 0)  -- token has no approvals: do nothing
          | some approved_account_ids =>
            if (hmGet approved_account_ids account_id).isSome then
              let m := hmRemove approved_account_ids account_id
              let refund :=
                bytes_for_approved_account_id account_id * STORAGE_PRICE_PER_BYTE
              let approvals' :=
                if m.isEmpty then upd approvals_by_id token_id none
                else upd approvals_by_id token_id (some m)
              Except.ok ({ s with approvals_by_id := some approvals' }, refund)
            else
              Except.ok (s, 0)  -- account was not approved: do nothing

/-- `nft_revoke_all` from `approval_impl.rs` lines 98-116. On success returns
the new state and the refund for every removed (account, id) pair. -/
def nft_revoke_all (s : NFTState) (env : Env) (token_id : TokenId) :
    Except String (NFTState × Nat) :=
  if env.attached_deposit ≠ 1 then
    Except.error "Requires attached deposit of exactly 1 yoctoNEAR"
  else
    match s.approvals_by_id with
    | none => Except.error "NFT does not support Approval Management"
    | some approvals_by_id =>
      match s.owner_by_id token_id with
      | none => Except.error "Token not found"
      | some owner_id =>
        if env.predecessor_account_id ≠ owner_id then
          Except.error "Predecessor must be token owner."
        else
          match approvals_by_id token_id with
          | none => Except.ok (s, 0)  -- token has no approvals: do nothing
          | some approved_account_ids =>
            let refund :=
              (approved_account_ids.map
                (fun p => bytes_for_approved_account_id p.1)).sum *
                STORAGE_PRICE_PER_BYTE
            Except.ok
              ({ s with approvals_by_id := some (upd approvals_by_id token_id none) },
               refund)

/-- `nft_is_approved` from `approval_impl.rs` lines 118-153. -/
def nft_is_approved (s : NFTState) (token_id : TokenId)
    (approved_account_id : AccountId) (approval_id : Option Nat) :
    Except String Bool :=
  match s.owner_by_id token_id with
  | none => Except.error "Token not found"
  | some _ =>
    match s.approvals_by_id with
    | none => Except.ok false  -- contract does not support approval management
    | some approvals_by_id =>
      match approvals_by_id token_id with
      | none => Except.ok false  -- token has no approvals
      | some approved_account_ids =>
        match hmGet approved_account_ids approved_account_id with
        | none => Except.ok false  -- account not in approvals HashMap
        | some actual_approval_id =>
          match approval_id with
          | some given_approval_id => Except.ok (given_approval_id = actual_approval_id)
          | none => Except.ok true  -- account approved, no approval_id given

/-- The approval currently held by `A` on `T`, if any: the view of the ledger
both `nft_is_approved` and the refund computation consult. -/
def currentApprovalId (s : NFTState) (token_id : TokenId)
    (account_id : AccountId) : Option Nat :=
  match s.approvals_by_id with
  | none => none
  | some approvals_by_id =>
    match approvals_by_id token_id with
    | none => none
    | some m => hmGet m account_id

/-- The storage delta `nft_approve` charges: zero on re-approval, the
marginal pair size otherwise. -/
def approveStorageUsed (s : NFTState) (token_id : TokenId)
    (account_id : AccountId) : Nat :=
  if (currentApprovalId s token_id account_id).isNone then
    bytes_for_approved_account_id account_id
  else 0

/-! ## Operation traces over the approval ledger -/

/-- One external call on the approval ledger. -/
inductive Op where
  | approve (env : Env) (token_id : TokenId) (account_id : AccountId) (msg : Option String)
  | revoke (env : Env) (token_id : TokenId) (account_id : AccountId)
  | revokeAll (env : Env) (token_id : TokenId)

/-- Host semantics of one call: a panicking (erroring) call discards every
state mutation, a successful call commits its new state. -/
def step (s : NFTState) (op : Op) : NFTState :=
  match op with
  | Op.approve env token_id account_id msg =>
    match nft_approve s env token_id account_id msg with
    | Except.ok r => r.state
    | Except.error _ => s
  | Op.revoke env token_id account_id =>
    match nft_revoke s env token_id account_id with
    | Except.ok r => r.1
    | Except.error _ => s
  | Op.revokeAll env token_id =>
    match nft_revoke_all s env token_id with
    | Except.ok r => r.1
    | Except.error _ => s

/-- The approval id issued to token `t` by one call, when the call is a
successful `nft_approve` on `t`. -/
def issued (s : NFTState) (op : Op) (t : TokenId) : Option Nat :=
  match op with
  | Op.approve env token_id account_id msg =>
    if token_id = t then
      match nft_approve s env token_id account_id msg with
      | Except.ok r => some r.approval_id
      | Except.error _ => none
    else none
  | Op.revoke _ _ _ => none
  | Op.revokeAll _ _ => none

/-- All approval ids issued to token `t` along a trace of calls, in order. -/
def issuedIds (s : NFTState) (ops : List Op) (t : TokenId) : List Nat :=
  match ops with
  | [] => []
  | op :: rest =>
    match issued s op t with
    | some i => i :: issuedIds (step s op) rest t
    | none => issuedIds (step s op) rest t

/-- The value the next approval on `t` would be issued: the per-token
counter, defaulting to 1 when absent (also when the counter map itself is
absent, in which case every approve on `t` panics and nothing is issued). -/
def ctr (s : NFTState) (t : TokenId) : Nat :=
  match s.next_approval_id_by_id with
  | none => 1
  | some m => (m t).getD 1

/-! ## Series registry (`series.rs`) -/

/-- `TokenMetadata` from the metadata module; only `title` is inspected by
the series registry, the remaining fields are carried as plain payload. -/
structure TokenMetadata where
  title : Option String
  description : Option String
  media : Option String
  media_hash : Option String
  copies : Option Nat
  issued_at : Option String
  expires_at : Option String
  starts_at : Option String
  updated_at : Option String
  extra : Option String
  reference : Option String
  reference_hash : Option String

abbrev TokenSeriesId := String

/-- `TokenSeries` from `series.rs` lines 19-27 (the commented-out royalty
field is not implemented). -/
structure TokenSeries where
  metadata : TokenMetadata
  creator_id : AccountId
  tokens : List TokenId
  price : Option Nat
  is_mintable : Bool

/-- `MAX_PRICE` from `series.rs` line 13: `1_000_000_000 * 10u128.pow(24)`. -/
def MAX_PRICE : Nat := 1000000000 * 10 ^ 24

/-- The `token_series_by_id : UnorderedMap<TokenSeriesId, TokenSeries>`
state, modelled as an insertion-ordered association list (its `len()` is the
list length). -/
structure SeriesState where
  token_series_by_id : List (TokenSeriesId × TokenSeries)

/-- `UnorderedMap::get`. -/
def umGet (m : List (TokenSeriesId × TokenSeries)) (k : TokenSeriesId) :
    Option TokenSeries :=
  match m with
  | [] => none
  | (k', v) :: rest => if k' = k then some v else umGet rest k

/-- `UnorderedMap::insert` (replace if present, append otherwise). -/
def umInsert (m : List (TokenSeriesId × TokenSeries)) (k : TokenSeriesId)
    (v : TokenSeries) : List (TokenSeriesId × TokenSeries) :=
  match m with
  | [] => [(k, v)]
  | (k', w) :: rest =>
    if k' = k then (k', v) :: rest else (k', w) :: umInsert rest k v

/-- One `nft_create_series` request: the caller, its arguments, the attached
deposit, and the storage delta the host measures around the mutation (the
`env::storage_usage()` difference is host-level and not computable in the
embedding). -/
structure CreateReq where
  caller_id : AccountId
  token_metadata : TokenMetadata
  price : Option Nat
  attached_deposit : Nat
  storage_delta : Nat

/-- `nft_create_series` from `series.rs` lines 42-136. On success returns
the new state, the assigned series id and the refund. -/
def nft_create_series (s : SeriesState) (req : CreateReq) :
    Except String (SeriesState × TokenSeriesId × Nat) :=
  -- token_series_id := (self.token_series_by_id.len() + 1).to_string()
  if (umGet s.token_series_by_id (toString (s.token_series_by_id.length + 1))).isSome then
    Except.error "FireFly: duplicate token_series_id"
  else if req.token_metadata.title.isNone then
    Except.error "FireFly: token_metadata.title is required"
  else
    match req.price with
    | some p =>
      if p < MAX_PRICE then
        match refund_deposit req.storage_delta req.attached_deposit with
        | Except.error e => Except.error e
        | Except.ok refund =>
          Except.ok
            ({ token_series_by_id :=
                 umInsert s.token_series_by_id (toString (s.token_series_by_id.length + 1))
                   { metadata := req.token_metadata
                     creator_id := req.caller_id
                     tokens := []
                     price := some p
                     is_mintable := true } },
             toString (s.token_series_by_id.length + 1), refund)
      else
        Except.error "FireFly: price higher than MAX_PRICE"
    | none =>
      match refund_deposit req.storage_delta req.attached_deposit with
      | Except.error e => Except.error e
      | Except.ok refund =>
        Except.ok
          ({ token_series_by_id :=
               umInsert s.token_series_by_id (toString (s.token_series_by_id.length + 1))
                 { metadata := req.token_metadata
                   creator_id := req.caller_id
                   tokens := []
                   price := none
                   is_mintable := true } },
           toString (s.token_series_by_id.length + 1), refund)

/-- The empty series registry of a fresh contract. -/
def emptySeries : SeriesState := { token_series_by_id := [] }

/-- Run a list of `nft_create_series` requests in order, collecting the
assigned ids; the first failing request aborts the run. -/
def runCreates (s : SeriesState) (reqs : List CreateReq) :
    Except String (SeriesState × List TokenSeriesId) :=
  match reqs with
  | [] => Except.ok (s, [])
  | req :: rest =>
    match nft_create_series s req with
    | Except.error e => Except.error e
    | Except.ok out =>
      match runCreates out.1 rest with
      | Except.error e => Except.error e
      | Except.ok out2 => Except.ok (out2.1, out.2.1 :: out2.2)

/-- The per-token approval mapping currently stored for `t`, if any. -/
def approvalsAt (s : NFTState) (t : TokenId) : Option ApprovalMap :=
  match s.approvals_by_id with
  | none => none
  | some approvals_by_id => approvals_by_id t

/-! ## Concrete example states used by the witnesses -/

/-- An owner table holding one token `t1` owned by `alice`. -/
def exOwner : TokenId → Option AccountId :=
  fun t => if t = "t1" then some "alice" else none

/-- A fresh contract state: approval management enabled, no approvals yet. -/
def s0ex : NFTState :=
  { owner_by_id := exOwner
    approvals_by_id := some (fun _ => none)
    next_approval_id_by_id := some (fun _ => none) }

/-- An owner call with a comfortable attached deposit. -/
def env1ex : Env := { predecessor_account_id := "alice", attached_deposit := 10 ^ 21 }

/-- An owner call attaching exactly one yocto. -/
def envYocto : Env := { predecessor_account_id := "alice", attached_deposit := 1 }

/-- A state where `bob` holds approval id 1 on `t1`. -/
def s1ex : NFTState :=
  { owner_by_id := exOwner
    approvals_by_id := some (fun t => if t = "t1" then some [("bob", 1)] else none)
    next_approval_id_by_id := some (fun t => if t = "t1" then some 2 else none) }

/-- A state where only `carol` is approved on `t1`. -/
def sCarolEx : NFTState :=
  { owner_by_id := exOwner
    approvals_by_id := some (fun t => if t = "t1" then some [("carol", 1)] else none)
    next_approval_id_by_id := some (fun t => if t = "t1" then some 2 else none) }

/-- A state whose approvals map is present but whose next-approval-id map is
absent. -/
def sNoNextEx : NFTState :=
  { owner_by_id := exOwner
    approvals_by_id := some (fun _ => none)
    next_approval_id_by_id := none }

/-- Approve `bob`, revoke him, approve him again. -/
def opsEx : List Op :=
  [Op.approve env1ex "t1" "bob" none,
   Op.revoke envYocto "t1" "bob",
   Op.approve env1ex "t1" "bob" none]

/-- Sample metadata with a title. -/
def mdEx : TokenMetadata :=
  { title := some "Olympus Mons", description := none, media := none,
    media_hash := none, copies := some 1, issued_at := none, expires_at := none,
    starts_at := none, updated_at := none, extra := none, reference := none,
    reference_hash := none }

/-- Sample metadata without a title. -/
def mdNoTitleEx : TokenMetadata :=
  { title := none, description := none, media := none,
    media_hash := none, copies := none, issued_at := none, expires_at := none,
    starts_at := none, updated_at := none, extra := none, reference := none,
    reference_hash := none }

/-- A valid series-creation request. -/
def reqEx : CreateReq :=
  { caller_id := "alice", token_metadata := mdEx, price := some 0,
    attached_deposit := 10 ^ 22, storage_delta := 100 }

/-- A request missing the metadata title. -/
def reqNoTitleEx : CreateReq :=
  { caller_id := "alice", token_metadata := mdNoTitleEx, price := none,
    attached_deposit := 10 ^ 22, storage_delta := 100 }

/-- A request whose price reaches the cap. -/
def reqBigPriceEx : CreateReq :=
  { caller_id := "alice", token_metadata := mdEx, price := some MAX_PRICE,
    attached_deposit := 10 ^ 22, storage_delta := 100 }

/-- The series record a successful `reqEx` creation stores. -/
def seriesRecEx : TokenSeries :=
  { metadata := mdEx, creator_id := "alice", tokens := [], price := some 0,
    is_mintable := true }

/-! ## Helper lemmas -/

theorem hmGet_hmInsert_self (m : ApprovalMap) (a : AccountId) (v : Nat) :
    hmGet (hmInsert m a v) a = some v := by
  induction m with
  | nil => simp [hmInsert, hmGet]
  | cons kv rest ih =>
    obtain ⟨k, w⟩ := kv
    by_cases hk : k = a
    · simp [hmInsert, hmGet, hk]
    · simp [hmInsert, hmGet, hk, ih]

theorem upd_self {α : Type} (m : TokenId → Option α) (k : TokenId) (v : Option α) :
    upd m k v k = v := by
  simp [upd]

theorem upd_ne {α : Type} (m : TokenId → Option α) (k : TokenId) (v : Option α)
    (t : TokenId) (h : t ≠ k) : upd m k v t = m t := by
  simp [upd, h]

/-- Inversion of a successful refund: the attached payment covered the
storage cost and the excess is returned. -/
theorem refund_deposit_ok_inv (u a ρ : Nat) (h : refund_deposit u a = Except.ok ρ) :
    u * STORAGE_PRICE_PER_BYTE ≤ a ∧ ρ = a - u * STORAGE_PRICE_PER_BYTE := by
  unfold refund_deposit at h
  split at h
  · exact absurd h (by simp)
  next hge =>
    simp only [Except.ok.injEq] at h
    exact ⟨by omega, h.symm⟩

/-- Inversion of a successful `nft_approve`: the preconditions that must have
held and the exact shape of the result. -/
theorem nft_approve_ok_inv (s : NFTState) (env : Env) (T : TokenId) (A : AccountId)
    (msg : Option String) (r : ApproveResult)
    (h : nft_approve s env T A msg = Except.ok r) :
    ∃ ab next,
      s.approvals_by_id = some ab ∧
      s.next_approval_id_by_id = some next ∧
      1 ≤ env.attached_deposit ∧
      s.owner_by_id T = some env.predecessor_account_id ∧
      r.approval_id = (next T).getD 1 ∧
      r.storage_used =
        (if (hmGet ((ab T).getD []) A).isNone then bytes_for_approved_account_id A else 0) ∧
      r.refund = env.attached_deposit - r.storage_used * STORAGE_PRICE_PER_BYTE ∧
      r.storage_used * STORAGE_PRICE_PER_BYTE ≤ env.attached_deposit ∧
      r.state.owner_by_id = s.owner_by_id ∧
      r.state.approvals_by_id =
        some (upd ab T (some (hmInsert ((ab T).getD []) A r.approval_id))) ∧
      r.state.next_approval_id_by_id =
        some (upd next T (some (r.approval_id + 1))) := by
  unfold nft_approve at h
  split at h
  · exact absurd h (by simp)
  next hdep =>
    split at h
    · exact absurd h (by simp)
    next ab hab =>
      split at h
      · exact absurd h (by simp)
      next o ho =>
        split at h
        · exact absurd h (by simp)
        next hpred =>
          split at h
          · exact absurd h (by simp)
          next nxt hnxt =>
            split at h
            · exact absurd h (by simp)
            next ρ hρ =>
              obtain ⟨hle, hρeq⟩ := refund_deposit_ok_inv _ _ _ hρ
              simp only [Except.ok.injEq] at h
              subst h
              push_neg at hpred
              exact ⟨ab, nxt, hab, hnxt, by omega, by rw [ho, hpred], rfl, rfl,
                hρeq, hle, rfl, rfl, rfl⟩

/-- Inversion of a successful `nft_revoke`. -/
theorem nft_revoke_ok_inv (s : NFTState) (env : Env) (T : TokenId) (A : AccountId)
    (s' : NFTState) (ρ : Nat)
    (h : nft_revoke s env T A = Except.ok (s', ρ)) :
    env.attached_deposit = 1 ∧
    s'.owner_by_id = s.owner_by_id ∧
    s'.next_approval_id_by_id = s.next_approval_id_by_id ∧
    (∃ o, s.owner_by_id T = some o ∧ env.predecessor_account_id = o) ∧
    ∃ ab ab', s.approvals_by_id = some ab ∧ s'.approvals_by_id = some ab' ∧
      ∀ t, t ≠ T → ab' t = ab t := by
  unfold nft_revoke at h
  split at h
  · exact absurd h (by simp)
  next hdep =>
    split at h
    · exact absurd h (by simp)
    next ab hab =>
      split at h
      · exact absurd h (by simp)
      next o ho =>
        split at h
        · exact absurd h (by simp)
        next hpred =>
          push_neg at hdep hpred
          split at h
          next hent =>
            simp only [Except.ok.injEq, Prod.mk.injEq] at h
            obtain ⟨hs', _⟩ := h
            subst hs'
            exact ⟨hdep, rfl, rfl, ⟨o, ho, hpred⟩, ab, ab, hab, hab, fun t _ => rfl⟩
          next m hm =>
            split at h
            next hsome =>
              simp only [Except.ok.injEq, Prod.mk.injEq] at h
              obtain ⟨hs', _⟩ := h
              subst hs'
              refine ⟨hdep, rfl, rfl, ⟨o, ho, hpred⟩, ab, _, hab, rfl, ?_⟩
              intro t ht
              split
              · exact upd_ne ab T none t ht
              · exact upd_ne ab T _ t ht
            next hnone =>
              simp only [Except.ok.injEq, Prod.mk.injEq] at h
              obtain ⟨hs', _⟩ := h
              subst hs'
              exact ⟨hdep, rfl, rfl, ⟨o, ho, hpred⟩, ab, ab, hab, hab, fun t _ => rfl⟩

/-- Inversion of a successful `nft_revoke_all`. -/
theorem nft_revoke_all_ok_inv (s : NFTState) (env : Env) (T : TokenId)
    (s' : NFTState) (ρ : Nat)
    (h : nft_revoke_all s env T = Except.ok (s', ρ)) :
    env.attached_deposit = 1 ∧
    s'.owner_by_id = s.owner_by_id ∧
    s'.next_approval_id_by_id = s.next_approval_id_by_id ∧
    (∃ o, s.owner_by_id T = some o ∧ env.predecessor_account_id = o) ∧
    ∃ ab ab', s.approvals_by_id = some ab ∧ s'.approvals_by_id = some ab' ∧
      ab' T = none ∧ ∀ t, t ≠ T → ab' t = ab t := by
  unfold nft_revoke_all at h
  split at h
  · exact absurd h (by simp)
  next hdep =>
    split at h
    · exact absurd h (by simp)
    next ab hab =>
      split at h
      · exact absurd h (by simp)
      next o ho =>
        split at h
        · exact absurd h (by simp)
        next hpred =>
          push_neg at hdep hpred
          split at h
          next hent =>
            simp only [Except.ok.injEq, Prod.mk.injEq] at h
            obtain ⟨hs', _⟩ := h
            subst hs'
            exact ⟨hdep, rfl, rfl, ⟨o, ho, hpred⟩, ab, ab, hab, hab, hent, fun t _ => rfl⟩
          next m hm =>
            simp only [Except.ok.injEq, Prod.mk.injEq] at h
            obtain ⟨hs', _⟩ := h
            subst hs'
            refine ⟨hdep, rfl, rfl, ⟨o, ho, hpred⟩, ab, _, hab, rfl,
              upd_self ab T none, fun t ht => upd_ne ab T none t ht⟩

/-- Claim C1: if `nft_approve(T, A, msg)` completes successfully, then
immediately afterwards `nft_is_approved(T, A, None)` returns true. -/
theorem approve_then_is_approved (s : NFTState) (env : Env) (T : TokenId)
    (A : AccountId) (msg : Option String)
    (h : (nft_approve s env T A msg).isOk = true) :
    nft_is_approved (step s (Op.approve env T A msg)) T A none = Except.ok true := by
  cases happr : nft_approve s env T A msg with
  | error e => rw [happr] at h; simp [Except.isOk, Except.toBool] at h
  | ok r =>
    obtain ⟨ab, nxt, hab, hnxt, _, hown, hid, _, _, _, howns, habs, _⟩ :=
      nft_approve_ok_inv s env T A msg r happr
    have hstep : step s (Op.approve env T A msg) = r.state := by
      simp only [step, happr]
    rw [hstep]
    simp only [nft_is_approved, howns, hown, habs, upd_self, hmGet_hmInsert_self]

/-- Witness for C1 at a concrete fresh token. -/
theorem approve_then_is_approved_witness :
    nft_is_approved (step s0ex (Op.approve env1ex "t1" "bob" none)) "t1" "bob" none =
      Except.ok true :=
  approve_then_is_approved s0ex env1ex "t1" "bob" none rfl

/-- Claim C4: revoking an account that is not approved (or a token with no
approval entry) is a silent no-op: the call succeeds, refunds nothing and
returns the state unchanged. -/
theorem revoke_never_approved_noop (s : NFTState) (env : Env) (T : TokenId)
    (A : AccountId)
    (hdep : env.attached_deposit = 1)
    (hab : s.approvals_by_id.isSome = true)
    (hown : s.owner_by_id T = some env.predecessor_account_id)
    (hno : currentApprovalId s T A = none) :
    nft_revoke s env T A = Except.ok (s, 0) := by
  obtain ⟨ab, hab'⟩ := Option.isSome_iff_exists.mp hab
  unfold nft_revoke
  cases hentry : ab T with
  | none => simp [hdep, hab', hown, hentry]
  | some m =>
    have hget : hmGet m A = none := by
      simp only [currentApprovalId, hab', hentry] at hno
      exact hno
    simp [hdep, hab', hown, hentry, hget]

/-- Witness for C4: revoking `bob`, who was never approved on `t1`. -/
theorem revoke_never_approved_noop_witness :
    nft_revoke sCarolEx envYocto "t1" "bob" = Except.ok (sCarolEx, 0) :=
  revoke_never_approved_noop sCarolEx envYocto "t1" "bob" rfl rfl rfl rfl

/-- Claim C5: a successful `nft_revoke_all(T)` deletes the whole per-token
approval entry for `T`, so `nft_is_approved(T, A, None)` is false for every
account afterwards. -/
theorem revoke_all_clears (s : NFTState) (env : Env) (T : TokenId)
    (h : (nft_revoke_all s env T).isOk = true) :
    approvalsAt (step s (Op.revokeAll env T)) T = none ∧
    ∀ A, nft_is_approved (step s (Op.revokeAll env T)) T A none = Except.ok false := by
  cases hrev : nft_revoke_all s env T with
  | error e => rw [hrev] at h; simp [Except.isOk, Except.toBool] at h
  | ok p =>
    obtain ⟨s', ρ⟩ := p
    obtain ⟨_, howns, _, ⟨o, ho, _⟩, ab, ab', hab, hab', habT, _⟩ :=
      nft_revoke_all_ok_inv s env T s' ρ hrev
    have hstep : step s (Op.revokeAll env T) = s' := by
      simp only [step, hrev]
    rw [hstep]
    constructor
    · simp only [approvalsAt, hab', habT]
    · intro A
      simp only [nft_is_approved, howns, ho, hab', habT]

/-- Witness for C5: after revoking all approvals on `t1`, `bob` is not
approved. -/
theorem revoke_all_clears_witness :
    approvalsAt (step s1ex (Op.revokeAll envYocto "t1")) "t1" = none ∧
    nft_is_approved (step s1ex (Op.revokeAll envYocto "t1")) "t1" "bob" none =
      Except.ok false :=
  ⟨(revoke_all_clears s1ex envYocto "t1" rfl).1,
   (revoke_all_clears s1ex envYocto "t1" rfl).2 "bob"⟩

/-- Claim C9: `nft_revoke` and `nft_revoke_all` leave the next-approval-id
table entirely unchanged and do not modify the approval entry of any other
token. -/
theorem revoke_frame (s : NFTState) (env : Env) (T : TokenId) (A : AccountId) :
    ((nft_revoke s env T A).isOk = true →
       (step s (Op.revoke env T A)).next_approval_id_by_id = s.next_approval_id_by_id ∧
       ∀ t, t ≠ T →
         approvalsAt (step s (Op.revoke env T A)) t = approvalsAt s t) ∧
    ((nft_revoke_all s env T).isOk = true →
       (step s (Op.revokeAll env T)).next_approval_id_by_id = s.next_approval_id_by_id ∧
       ∀ t, t ≠ T →
         approvalsAt (step s (Op.revokeAll env T)) t = approvalsAt s t) := by
  constructor
  · intro h
    cases hrev : nft_revoke s env T A with
    | error e => rw [hrev] at h; simp [Except.isOk, Except.toBool] at h
    | ok p =>
      obtain ⟨s', ρ⟩ := p
      obtain ⟨_, _, hnxt, _, ab, ab', hab, hab', hframe⟩ :=
        nft_revoke_ok_inv s env T A s' ρ hrev
      have hstep : step s (Op.revoke env T A) = s' := by
        simp only [step, hrev]
      rw [hstep]
      exact ⟨hnxt, fun t ht => by
        simp only [approvalsAt, hab', hab, hframe t ht]⟩
  · intro h
    cases hrev : nft_revoke_all s env T with
    | error e => rw [hrev] at h; simp [Except.isOk, Except.toBool] at h
    | ok p =>
      obtain ⟨s', ρ⟩ := p
      obtain ⟨_, _, hnxt, _, ab, ab', hab, hab', _, hframe⟩ :=
        nft_revoke_all_ok_inv s env T s' ρ hrev
      have hstep : step s (Op.revokeAll env T) = s' := by
        simp only [step, hrev]
      rw [hstep]
      exact ⟨hnxt, fun t ht => by
        simp only [approvalsAt, hab', hab, hframe t ht]⟩

/-- Witness for C9 on concrete revokes of `bob` on `t1`. -/
theorem revoke_frame_witness :
    (step s1ex (Op.revoke envYocto "t1" "bob")).next_approval_id_by_id =
        s1ex.next_approval_id_by_id ∧
    approvalsAt (step s1ex (Op.revoke envYocto "t1" "bob")) "t2" =
        approvalsAt s1ex "t2" ∧
    (step s1ex (Op.revokeAll envYocto "t1")).next_approval_id_by_id =
        s1ex.next_approval_id_by_id ∧
    approvalsAt (step s1ex (Op.revokeAll envYocto "t1")) "t2" =
        approvalsAt s1ex "t2" :=
  ⟨((revoke_frame s1ex envYocto "t1" "bob").1 rfl).1,
   ((revoke_frame s1ex envYocto "t1" "bob").1 rfl).2 "t2" (by decide),
   ((revoke_frame s1ex envYocto "t1" "bob").2 rfl).1,
   ((revoke_frame s1ex envYocto "t1" "bob").2 rfl).2 "t2" (by decide)⟩

/-- Claim C10: with the approvals map present but the next-approval-id map
absent, `nft_approve` aborts with the dedicated message even though every
failure condition the spec lists for approve is avoided. -/
theorem approve_requires_next_map (s : NFTState) (env : Env) (T : TokenId)
    (A : AccountId) (msg : Option String) (ab : TokenId → Option ApprovalMap)
    (hab : s.approvals_by_id = some ab)
    (hnext : s.next_approval_id_by_id = none)
    (hdep : 1 ≤ env.attached_deposit)
    (hown : s.owner_by_id T = some env.predecessor_account_id) :
    nft_approve s env T A msg =
      Except.error "next_approval_by_id must be set for approval ext" := by
  have hd : ¬env.attached_deposit < 1 := by omega
  unfold nft_approve
  simp [hd, hab, hown, hnext]

/-- Witness for C10 at a concrete state missing the next-approval-id map. -/
theorem approve_requires_next_map_witness :
    nft_approve sNoNextEx env1ex "t1" "bob" none =
      Except.error "next_approval_by_id must be set for approval ext" :=
  approve_requires_next_map sNoNextEx env1ex "t1" "bob" none (fun _ => none)
    rfl rfl (by decide) rfl

/-- Claim C3: `nft_is_approved(T, A, Some(id))` is true iff `A` currently
holds exactly `id` on `T`; it returns false without failing in every other
case, and fails exactly when the token is unknown. -/
theorem is_approved_specific_id (s : NFTState) (T : TokenId) (A : AccountId)
    (id : Nat) :
    (s.owner_by_id T = none →
       nft_is_approved s T A (some id) = Except.error "Token not found") ∧
    ((s.owner_by_id T).isSome = true →
       nft_is_approved s T A (some id) =
         Except.ok (decide (currentApprovalId s T A = some id)) ∧
       (nft_is_approved s T A (some id) = Except.ok true ↔
         currentApprovalId s T A = some id)) := by
  constructor
  · intro h
    simp only [nft_is_approved, h]
  · intro h
    obtain ⟨o, ho⟩ := Option.isSome_iff_exists.mp h
    have key : nft_is_approved s T A (some id) =
        Except.ok (decide (currentApprovalId s T A = some id)) := by
      cases hab : s.approvals_by_id with
      | none => simp [nft_is_approved, currentApprovalId, ho, hab]
      | some ab =>
        cases hent : ab T with
        | none => simp [nft_is_approved, currentApprovalId, ho, hab, hent]
        | some m =>
          cases hget : hmGet m A with
          | none => simp [nft_is_approved, currentApprovalId, ho, hab, hent, hget]
          | some actual =>
            simp only [nft_is_approved, currentApprovalId, ho, hab, hent, hget,
              Except.ok.injEq]
            simp [eq_comm]
    refine ⟨key, ?_⟩
    rw [key]
    simp

/-- Witness for C3: in `s1ex`, `bob` holds exactly id 1 on `t1`, a stale id 7
is rejected, and an unknown token fails. -/
theorem is_approved_specific_id_witness :
    nft_is_approved s1ex "t1" "bob" (some 1) = Except.ok true ∧
    nft_is_approved s1ex "t1" "bob" (some 7) =
      Except.ok (decide (currentApprovalId s1ex "t1" "bob" = some 7)) ∧
    nft_is_approved s1ex "t9" "bob" (some 1) = Except.error "Token not found" :=
  ⟨((is_approved_specific_id s1ex "t1" "bob" 1).2 rfl).2.mpr rfl,
   ((is_approved_specific_id s1ex "t1" "bob" 7).2 rfl).1,
   (is_approved_specific_id s1ex "t9" "bob" 1).1 rfl⟩

/-- Claim C8: on a successful `nft_approve`, re-approval charges a zero
storage delta (the whole deposit is refunded) and a fresh approval charges
exactly the marginal bytes of one (account, id) pair, refunding the attached
payment minus that cost. -/
theorem approve_storage_refund (s : NFTState) (env : Env) (T : TokenId)
    (A : AccountId) (msg : Option String) (u ρ : Nat)
    (h : Except.map (fun r => (r.storage_used, r.refund)) (nft_approve s env T A msg) =
           Except.ok (u, ρ)) :
    ((currentApprovalId s T A).isSome = true →
       u = 0 ∧ ρ = env.attached_deposit) ∧
    (currentApprovalId s T A = none →
       u = bytes_for_approved_account_id A ∧
       ρ = env.attached_deposit - u * STORAGE_PRICE_PER_BYTE) := by
  cases happr : nft_approve s env T A msg with
  | error e => rw [happr] at h; simp [Except.map] at h
  | ok r =>
    rw [happr] at h
    simp only [Except.map, Except.ok.injEq, Prod.mk.injEq] at h
    obtain ⟨hu, hρ⟩ := h
    obtain ⟨ab, nxt, hab, hnxt, _, _, _, hst, href, _, _, _, _⟩ :=
      nft_approve_ok_inv s env T A msg r happr
    have hcur : currentApprovalId s T A = hmGet ((ab T).getD []) A := by
      cases hent : ab T <;> simp [currentApprovalId, hab, hent, hmGet]
    cases hget : hmGet ((ab T).getD []) A with
    | some v =>
      rw [hget] at hst
      simp only [Option.isNone_some, Bool.false_eq_true, if_false] at hst
      constructor
      · intro _
        refine ⟨by omega, ?_⟩
        rw [← hρ, href, hst]
        simp
      · intro hnone
        rw [hcur, hget] at hnone
        exact absurd hnone (by simp)
    | none =>
      rw [hget] at hst
      simp only [Option.isNone_none, if_true] at hst
      constructor
      · intro hsome
        rw [hcur, hget] at hsome
        exact absurd hsome (by simp)
      · intro _
        exact ⟨by omega, by rw [← hρ, href, hu]⟩

/-- Witness for C8: a fresh approval of `bob` (13-byte account-id entry,
partial refund) and a re-approval of `bob` (zero delta, full refund). -/
theorem approve_storage_refund_witness :
    (0 = 0 ∧ 1000000000000000000000 = env1ex.attached_deposit) ∧
    (15 = bytes_for_approved_account_id "bob" ∧
     850000000000000000000 =
       env1ex.attached_deposit - 15 * STORAGE_PRICE_PER_BYTE) :=
  ⟨(approve_storage_refund s1ex env1ex "t1" "bob" none 0
      1000000000000000000000 rfl).1 rfl,
   (approve_storage_refund s0ex env1ex "t1" "bob" none 15
      850000000000000000000 rfl).2 rfl⟩

/-- The counter view is at least as large after any call. -/
theorem ctr_step_mono (s : NFTState) (op : Op) (t : TokenId) :
    ctr s t ≤ ctr (step s op) t := by
  cases op with
  | approve env tid a msg =>
    cases happr : nft_approve s env tid a msg with
    | error e => simp [step, happr]
    | ok r =>
      obtain ⟨ab, nxt, hab, hnxt, _, _, hid, _, _, _, _, _, hnxt'⟩ :=
        nft_approve_ok_inv s env tid a msg r happr
      have hstep : step s (Op.approve env tid a msg) = r.state := by
        simp only [step, happr]
      rw [hstep]
      by_cases ht : t = tid
      · subst ht
        simp only [ctr, hnxt, hnxt', upd_self, Option.getD_some, hid]
        omega
      · simp only [ctr, hnxt, hnxt', upd_ne nxt tid _ t ht, le_refl]
  | revoke env tid a =>
    cases hrev : nft_revoke s env tid a with
    | error e => simp [step, hrev]
    | ok p =>
      obtain ⟨s', ρ⟩ := p
      obtain ⟨_, _, hnxt, _, _⟩ := nft_revoke_ok_inv s env tid a s' ρ hrev
      have hstep : step s (Op.revoke env tid a) = s' := by
        simp only [step, hrev]
      rw [hstep]
      simp only [ctr, hnxt, le_refl]
  | revokeAll env tid =>
    cases hrev : nft_revoke_all s env tid with
    | error e => simp [step, hrev]
    | ok p =>
      obtain ⟨s', ρ⟩ := p
      obtain ⟨_, _, hnxt, _, _⟩ := nft_revoke_all_ok_inv s env tid s' ρ hrev
      have hstep : step s (Op.revokeAll env tid) = s' := by
        simp only [step, hrev]
      rw [hstep]
      simp only [ctr, hnxt, le_refl]

/-- A call that issues an id to `t` issues exactly the current counter value
and leaves the counter at one more than the issued id. -/
theorem issued_eq_ctr (s : NFTState) (op : Op) (t : TokenId) (i : Nat)
    (h : issued s op t = some i) :
    i = ctr s t ∧ ctr (step s op) t = i + 1 := by
  cases op with
  | approve env tid a msg =>
    simp only [issued] at h
    split at h
    next ht =>
      subst ht
      cases happr : nft_approve s env tid a msg with
      | error e => rw [happr] at h; cases h
      | ok r =>
        rw [happr] at h
        simp only [Option.some.injEq] at h
        subst h
        obtain ⟨ab, nxt, hab, hnxt, _, _, hid, _, _, _, _, _, hnxt'⟩ :=
          nft_approve_ok_inv s env tid a msg r happr
        have hstep : step s (Op.approve env tid a msg) = r.state := by
          simp only [step, happr]
        rw [hstep]
        constructor
        · simp only [ctr, hnxt, hid]
        · simp only [ctr, hnxt', upd_self, Option.getD_some]
    next => cases h
  | revoke env tid a => simp [issued] at h
  | revokeAll env tid => simp [issued] at h

/-- Along any trace, every id issued to `t` is bounded below by the current
counter, and successive issued ids strictly increase. -/
theorem issuedIds_chain (s : NFTState) (ops : List Op) (t : TokenId) :
    List.Chain' (· < ·) (issuedIds s ops t) ∧
    ∀ i ∈ issuedIds s ops t, ctr s t ≤ i := by
  induction ops generalizing s with
  | nil => simp [issuedIds]
  | cons op rest ih =>
    unfold issuedIds
    cases hop : issued s op t with
    | none =>
      obtain ⟨hc, hlb⟩ := ih (step s op)
      exact ⟨hc, fun i hi => le_trans (ctr_step_mono s op t) (hlb i hi)⟩
    | some i =>
      obtain ⟨hi_eq, hnext⟩ := issued_eq_ctr s op t i hop
      obtain ⟨hc, hlb⟩ := ih (step s op)
      constructor
      · rw [List.chain'_cons']
        refine ⟨?_, hc⟩
        intro y hy
        have hmem : y ∈ issuedIds (step s op) rest t :=
          List.mem_of_mem_head? hy
        have := hlb y hmem
        omega
      · intro j hj
        rcases List.mem_cons.mp hj with hj | hj
        · omega
        · have := hlb j hj
          omega

/-- Claim C2: along any trace of approve/revoke/revoke-all calls starting
from a state whose counter view for `T` is at least 1 (as in any reachable
state: the counter starts absent, defaults to 1, and is only ever set to a
successor), the approval ids issued to `T` are pairwise strictly increasing
in order of issue — revokes never reset the counter, no id is ever reused —
and the id 0 is never issued. -/
theorem approval_ids_strictly_increasing (s : NFTState) (ops : List Op)
    (t : TokenId) (h : 1 ≤ ctr s t) :
    List.Pairwise (· < ·) (issuedIds s ops t) ∧
    ∀ i ∈ issuedIds s ops t, 0 < i := by
  obtain ⟨hc, hlb⟩ := issuedIds_chain s ops t
  exact ⟨List.chain'_iff_pairwise.mp hc, fun i hi => by have := hlb i hi; omega⟩

/-- Witness for C2: approve `bob`, revoke him, approve him again — the
issued ids are 1 then 2. -/
theorem approval_ids_strictly_increasing_witness :
    List.Pairwise (· < ·) (issuedIds s0ex opsEx "t1") ∧
    ∀ i ∈ issuedIds s0ex opsEx "t1", 0 < i :=
  approval_ids_strictly_increasing s0ex opsEx "t1" (by decide)

/-- Inversion of a failing refund: the payment did not cover the cost. -/
theorem refund_deposit_error_inv (u a : Nat) (e : String)
    (h : refund_deposit u a = Except.error e) :
    a < u * STORAGE_PRICE_PER_BYTE := by
  unfold refund_deposit at h
  split at h
  next hlt => exact hlt
  next => exact absurd h (by simp)

/-- Claim C7 counterexample: with a non-zero deposit, approval management
enabled, a known token and the owner calling — none of the four failure
conditions the spec lists — `nft_approve` still aborts, because the
next-approval-id map is absent. -/
theorem approve_fails_outside_listed_conditions :
    (∃ e, nft_approve sNoNextEx env1ex "t1" "bob" none = Except.error e) ∧
    env1ex.attached_deposit ≠ 0 ∧
    sNoNextEx.approvals_by_id.isSome = true ∧
    sNoNextEx.owner_by_id "t1" = some env1ex.predecessor_account_id :=
  ⟨⟨"next_approval_by_id must be set for approval ext", rfl⟩, by decide, rfl, rfl⟩

/-- Claim C7 (amended): `nft_approve` fails if and only if zero payment is
attached, approval management is disabled, the token is unknown, the caller
is not the owner, the next-approval-id map is absent, or the attached
payment does not cover the storage cost of the new approval entry; a failed
call commits no state change. -/
theorem nft_approve_error_iff (s : NFTState) (env : Env) (T : TokenId)
    (A : AccountId) (msg : Option String) :
    ((∃ e, nft_approve s env T A msg = Except.error e) ↔
      (env.attached_deposit = 0 ∨
       s.approvals_by_id = none ∨
       s.owner_by_id T = none ∨
       (∃ o, s.owner_by_id T = some o ∧ env.predecessor_account_id ≠ o) ∨
       s.next_approval_id_by_id = none ∨
       env.attached_deposit < approveStorageUsed s T A * STORAGE_PRICE_PER_BYTE)) ∧
    (∀ e, nft_approve s env T A msg = Except.error e →
       step s (Op.approve env T A msg) = s) := by
  have hstorage : ∀ ab, s.approvals_by_id = some ab →
      approveStorageUsed s T A =
        (if (hmGet ((ab T).getD []) A).isNone then
           bytes_for_approved_account_id A
         else 0) := by
    intro ab hab
    unfold approveStorageUsed currentApprovalId
    rw [hab]
    cases hent : ab T <;> simp [hmGet, hent]
  constructor
  · constructor
    · rintro ⟨e, he⟩
      unfold nft_approve at he
      split at he
      next hd => exact Or.inl (by omega)
      next hd =>
        split at he
        next hab => exact Or.inr (Or.inl hab)
        next ab hab =>
          split at he
          next hown => exact Or.inr (Or.inr (Or.inl hown))
          next o ho =>
            split at he
            next hpred =>
              exact Or.inr (Or.inr (Or.inr (Or.inl ⟨o, ho, hpred⟩)))
            next hpred =>
              split at he
              next hnxt =>
                exact Or.inr (Or.inr (Or.inr (Or.inr (Or.inl hnxt))))
              next nxt hnxt =>
                split at he
                next e' hrd =>
                  right; right; right; right; right
                  rw [hstorage ab hab]
                  exact refund_deposit_error_inv _ _ _ hrd
                next => exact absurd he (by simp)
    · intro hdisj
      cases hres : nft_approve s env T A msg with
      | error e => exact ⟨e, rfl⟩
      | ok r =>
        exfalso
        obtain ⟨ab, nxt, hab, hnxt, hdep, hown, _, hst, _, hle, _, _, _⟩ :=
          nft_approve_ok_inv s env T A msg r hres
        rcases hdisj with h0 | h0 | h0 | ⟨o, ho, hne⟩ | h0 | h0
        · omega
        · rw [h0] at hab; exact Option.noConfusion hab
        · rw [h0] at hown; exact Option.noConfusion hown
        · rw [hown] at ho
          exact hne (Option.some.inj ho)
        · rw [h0] at hnxt; exact Option.noConfusion hnxt
        · rw [hstorage ab hab] at h0
          rw [hst] at hle
          omega
  · intro e he
    simp [step, he]

/-- Witness for C7 (amended) at the concrete missing-next-map state. -/
theorem nft_approve_error_iff_witness :
    (∃ e, nft_approve sNoNextEx env1ex "t1" "carol" none = Except.error e) ∧
    step sNoNextEx (Op.approve env1ex "t1" "carol" none) = sNoNextEx :=
  ⟨(nft_approve_error_iff sNoNextEx env1ex "t1" "carol" none).1.mpr
     (Or.inr (Or.inr (Or.inr (Or.inr (Or.inl rfl))))),
   (nft_approve_error_iff sNoNextEx env1ex "t1" "carol" none).2
     "next_approval_by_id must be set for approval ext" rfl⟩

/-- Inserting a fresh key into the series map grows it by one entry. -/
theorem umInsert_fresh_length (m : List (TokenSeriesId × TokenSeries))
    (k : TokenSeriesId) (v : TokenSeries) (h : umGet m k = none) :
    (umInsert m k v).length = m.length + 1 := by
  induction m with
  | nil => rfl
  | cons kv rest ih =>
    obtain ⟨k', w⟩ := kv
    by_cases hk : k' = k
    · rw [hk] at h
      simp [umGet] at h
    · have hrest : umGet rest k = none := by
        simpa [umGet, hk] using h
      simp [umInsert, hk, ih hrest]

/-- Inversion of a successful `nft_create_series`: the assigned id is the
stringified successor of the current series count and the count grows by
one. -/
theorem create_series_ok_inv (s : SeriesState) (req : CreateReq)
    (out : SeriesState × TokenSeriesId × Nat)
    (h : nft_create_series s req = Except.ok out) :
    out.2.1 = toString (s.token_series_by_id.length + 1) ∧
    out.1.token_series_by_id.length = s.token_series_by_id.length + 1 := by
  unfold nft_create_series at h
  split at h
  · exact absurd h (by simp)
  next hdup =>
    have hnone : umGet s.token_series_by_id
        (toString (s.token_series_by_id.length + 1)) = none := by
      cases hu : umGet s.token_series_by_id
          (toString (s.token_series_by_id.length + 1)) with
      | none => rfl
      | some v => rw [hu] at hdup; exact absurd rfl hdup
    split at h
    · exact absurd h (by simp)
    next htitle =>
      split at h
      next p hp =>
        split at h
        next hlt =>
          split at h
          · exact absurd h (by simp)
          next ρ hρ =>
            simp only [Except.ok.injEq] at h
            subst h
            exact ⟨rfl, umInsert_fresh_length _ _ _ hnone⟩
        next => exact absurd h (by simp)
      next hp =>
        split at h
        · exact absurd h (by simp)
        next ρ hρ =>
          simp only [Except.ok.injEq] at h
          subst h
          exact ⟨rfl, umInsert_fresh_length _ _ _ hnone⟩

/-- Ids assigned by a run of successful creates, starting from any state:
the stringified successive counts. -/
theorem runCreates_ids (reqs : List CreateReq) (s : SeriesState)
    (s' : SeriesState) (ids : List TokenSeriesId)
    (h : runCreates s reqs = Except.ok (s', ids)) :
    ids = (List.range reqs.length).map
        (fun i => toString (s.token_series_by_id.length + i + 1)) ∧
    s'.token_series_by_id.length = s.token_series_by_id.length + reqs.length := by
  induction reqs generalizing s s' ids with
  | nil =>
    simp only [runCreates, Except.ok.injEq, Prod.mk.injEq] at h
    obtain ⟨h1, h2⟩ := h
    subst h1
    subst h2
    simp
  | cons req rest ih =>
    unfold runCreates at h
    split at h
    · exact absurd h (by simp)
    next out hout =>
      split at h
      · exact absurd h (by simp)
      next out2 hrun =>
        simp only [Except.ok.injEq, Prod.mk.injEq] at h
        obtain ⟨h1, h2⟩ := h
        obtain ⟨hid, hlen⟩ := create_series_ok_inv s req out hout
        obtain ⟨hids, hlen2⟩ := ih out.1 out2.1 out2.2 hrun
        have hhead : out.2.1 =
            (fun i => toString (s.token_series_by_id.length + i + 1)) 0 := by
          rw [hid]
        have htail : out2.2 =
            List.map
              ((fun i => toString (s.token_series_by_id.length + i + 1)) ∘ Nat.succ)
              (List.range rest.length) := by
          rw [hids]
          congr 1
          funext i
          simp only [Function.comp_apply]
          congr 1
          omega
        constructor
        · rw [← h2, List.length_cons, List.range_succ_eq_map, List.map_cons,
            List.map_map]
          exact congrArg₂ List.cons hhead htail
        · rw [← h1]
          simp only [List.length_cons]
          omega

/-- Claim C6: series ids are assigned as the stringified successor of the
current series count — so successive successful creates from an empty
registry get ids "1", "2", ... in creation order — and creation fails when
the metadata title is absent or a supplied price reaches
`MAX_PRICE = 10^9 * 10^24`. -/
theorem create_series_id_scheme :
    (∀ s req out, nft_create_series s req = Except.ok out →
        out.2.1 = toString (s.token_series_by_id.length + 1) ∧
        out.1.token_series_by_id.length = s.token_series_by_id.length + 1) ∧
    (∀ reqs s' ids, runCreates emptySeries reqs = Except.ok (s', ids) →
        ids = (List.range reqs.length).map (fun i => toString (i + 1))) ∧
    (∀ s req, req.token_metadata.title = none →
        ∃ e, nft_create_series s req = Except.error e) ∧
    (∀ s req p, req.price = some p → MAX_PRICE ≤ p →
        ∃ e, nft_create_series s req = Except.error e) := by
  refine ⟨create_series_ok_inv, ?_, ?_, ?_⟩
  · intro reqs s' ids h
    obtain ⟨hids, _⟩ := runCreates_ids reqs emptySeries s' ids h
    rw [hids]
    congr 1
    funext i
    congr 1
    simp [emptySeries]
  · intro s req h
    unfold nft_create_series
    split
    · exact ⟨_, rfl⟩
    · split
      next htitle => exact ⟨_, rfl⟩
      next htitle => exact absurd (by simp [h]) htitle
  · intro s req p hp hge
    unfold nft_create_series
    split
    · exact ⟨_, rfl⟩
    · split
      · exact ⟨_, rfl⟩
      · simp only [hp]
        split
        next hlt => exact absurd hlt (by omega)
        next => exact ⟨_, rfl⟩

/-- Witness for C6: two concrete creations from the empty registry get ids
"1" then "2"; a title-less request and an at-cap price both fail. -/
theorem create_series_id_scheme_witness :
    ("1" = toString (emptySeries.token_series_by_id.length + 1) ∧
     ({ token_series_by_id := [("1", seriesRecEx)] } :
        SeriesState).token_series_by_id.length =
       emptySeries.token_series_by_id.length + 1) ∧
    (["1", "2"] = (List.range 2).map (fun i => toString (i + 1))) ∧
    (∃ e, nft_create_series emptySeries reqNoTitleEx = Except.error e) ∧
    (∃ e, nft_create_series emptySeries reqBigPriceEx = Except.error e) :=
  ⟨create_series_id_scheme.1 emptySeries reqEx
     ({ token_series_by_id := [("1", seriesRecEx)] }, "1", 9000000000000000000000)
     rfl,
   create_series_id_scheme.2.1 [reqEx, reqEx]
     { token_series_by_id := [("1", seriesRecEx), ("2", seriesRecEx)] }
     ["1", "2"] rfl,
   create_series_id_scheme.2.2.1 emptySeries reqNoTitleEx rfl,
   create_series_id_scheme.2.2.2 emptySeries reqBigPriceEx MAX_PRICE rfl
     (le_refl MAX_PRICE)⟩

end FireflyNft
